import Mathlib

/-!
Verification of the Network Interface & Firewall Policy Engine
(`src/network.rs`) against its natural-language specification.

The nftables intermediate representation, its renderer, the zone policy
deriver, the policy applier (`initialize_nftables`, `add_firewall_rule`,
`delete_firewall_rule`) and the kernel link operations (`setup_interface`,
`get_interfaces`) are shallowly embedded below.  Rust `String` becomes
`String`, `Vec` becomes `List`, `Option` stays `Option`, and fallible
methods return `Except String` results; methods that mutate `self` or issue
kernel messages are modelled as explicit state-passing functions, returning
the result together with the possibly-mutated state.  Rust's `HashMap`
grouping in `initialize_nftables` is modelled as an insertion-ordered
association list (`addToZone` mirrors `entry(..).or_insert_with(..).push`);
the iteration order of a `HashMap` is unspecified in the source, and every
theorem below that inspects the zone-derived rules is invariant under
permuting the zone groups.
-/

namespace nftables

/-- TableFamily from `schemas::nftables`, with its `Display` rendering. -/
inductive TableFamily where
  | Ip
  | Ip6
  | Inet
  | Arp
  | Bridge
  | Netdev
deriving DecidableEq

def renderFamily : TableFamily → String
  | .Ip => "ip"
  | .Ip6 => "ip6"
  | .Inet => "inet"
  | .Arp => "arp"
  | .Bridge => "bridge"
  | .Netdev => "netdev"

/-- Data from `expr::Data`: a set of strings, a string value or a numeric
value (the source's `u64` is modelled as `Nat`). -/
inductive Data where
  | Set (items : List String)
  | StrVal (val : String)
  | NumVal (val : Nat)
deriving DecidableEq

/-- Expr from `expr::Expr`.  `Match` carries its operator and boxed child
expression, `Cmp` its operator and data; `Accept`, `Drop` and `Counter` are
the unit structs of the source. -/
inductive Expr where
  | Match (op : String) (expr : Expr)
  | Cmp (op : String) (data : Data)
  | Accept
  | Drop
  | Counter
deriving DecidableEq

/-- AddTable from `objects::AddTable`. -/
structure AddTable where
  family : TableFamily
  name : String
deriving DecidableEq

/-- AddChain from `objects::AddChain`. -/
structure AddChain where
  family : TableFamily
  table : String
  name : String
  handle : Option Nat
  constraint : Option String
deriving DecidableEq

/-- Add from `objects::Add` (a rule-add statement). -/
structure Add where
  family : TableFamily
  table : String
  chain : String
  handle : Option Nat
  index : Option Nat
  expr : List Expr
deriving DecidableEq

/-- Flush from `objects::Flush`. -/
inductive Flush where
  | Table (family : TableFamily) (name : String)
  | Chain (family : TableFamily) (table : String) (name : String)
deriving DecidableEq

/-- Stmt from the `nftables` module. -/
inductive Stmt where
  | AddTable (t : nftables.AddTable)
  | AddChain (c : nftables.AddChain)
  | Add (a : nftables.Add)
  | Flush (f : nftables.Flush)
deriving DecidableEq

/-- writeJoin mirrors the source's rendering loops
`for (i, e) in ... { if i > 0 { write sep } write e }`: the accumulator
carries the rendered text and a "no item written yet" flag. -/
def writeJoin (sep : String) (items : List String) : String :=
  (items.foldl (fun acc s => (acc.1 ++ (if acc.2 then "" else sep) ++ s, false)) ("", true)).1

/-- renderExpr is the `Display` implementation for `Expr`/`Match`/`Cmp`/
`Accept`/`Drop`/`Counter`.  A `Data::Set` renders as `op { a, b }` (braces
written with escapes), `StrVal`/`NumVal` as `op value`. -/
def renderExpr : Expr → String
  | .Match op e => op ++ " " ++ renderExpr e
  | .Cmp op (.Set items) => op ++ " \x7b " ++ writeJoin ", " items ++ " \x7d"
  | .Cmp op (.StrVal v) => op ++ " " ++ v
  | .Cmp op (.NumVal n) => op ++ " " ++ Nat.repr n
  | .Accept => "accept"
  | .Drop => "drop"
  | .Counter => "counter"

/-- renderStmt is the `Display` implementation for `Stmt` (and `Flush`).
Note the rule case writes `"add rule {family} {table} {chain} "` with a
trailing space before the space-joined expression list. -/
def renderStmt : Stmt → String
  | .AddTable t => "add table " ++ renderFamily t.family ++ " " ++ t.name
  | .AddChain c =>
      match c.constraint with
      | some con =>
          "add chain " ++ renderFamily c.family ++ " " ++ c.table ++ " " ++ c.name ++ " " ++ con
      | none => "add chain " ++ renderFamily c.family ++ " " ++ c.table ++ " " ++ c.name
  | .Add a =>
      "add rule " ++ renderFamily a.family ++ " " ++ a.table ++ " " ++ a.chain ++ " " ++
        writeJoin " " (a.expr.map renderExpr)
  | .Flush (.Table family name) => "flush table " ++ renderFamily family ++ " " ++ name
  | .Flush (.Chain family table name) =>
      "flush chain " ++ renderFamily family ++ " " ++ table ++ " " ++ name

/-- batchAdd is `Batch::add`: render the statement, append the optional
`" # comment"` suffix, and push the resulting command line.  The `commands`
vector of `Batch` is modelled as `List String`. -/
def batchAdd (commands : List String) (stmt : Stmt) (comment : Option String) : List String :=
  commands ++ [match comment with
    | some c => renderStmt stmt ++ " # " ++ c
    | none => renderStmt stmt]

/-- script is the command joining done by `Batch::execute`
(`self.commands.join("\n")`). -/
def script (commands : List String) : String :=
  writeJoin "\n" commands

end nftables

open nftables

/-- InterfaceConfig from `network.rs`. -/
structure InterfaceConfig where
  name : String
  dhcp : Option Bool
  address : Option String
  nftables_zone : Option String
deriving DecidableEq

/-- NetworkManager state: the configured interfaces (behind a mutex in the
source) and the stored nftables batch (its rendered command lines).  The
netlink handle is modelled separately as an explicit `KernelState`. -/
structure NetworkManager where
  interfaces : List InterfaceConfig
  nftables_handle : List String
deriving DecidableEq

/-- iifnameMatch is the `meta iifname <name>` matcher built repeatedly in
`initialize_nftables`. -/
def iifnameMatch (iface : String) : Expr :=
  .Match "meta" (.Cmp "iifname" (.StrVal iface))

/-- wanRule: the rule added for each interface of zone `"wan"` — allow
inbound tcp dport 22 on that interface. -/
def wanRule (iface : String) : Stmt :=
  .Add ⟨.Inet, "filter", "input", none, none,
    [iifnameMatch iface, .Match "tcp" (.Cmp "dport" (.StrVal "22")), .Accept]⟩

/-- lanRule: the rule added for each interface of zone `"lan"` — allow all
inbound traffic on that interface. -/
def lanRule (iface : String) : Stmt :=
  .Add ⟨.Inet, "filter", "input", none, none, [iifnameMatch iface, .Accept]⟩

/-- otherRule: the rule added for each interface of any other zone — allow
inbound tcp dport 80 and 443 on that interface. -/
def otherRule (iface : String) : Stmt :=
  .Add ⟨.Inet, "filter", "input", none, none,
    [iifnameMatch iface, .Match "tcp" (.Cmp "dport" (.Set ["80", "443"])), .Accept]⟩

/-- zoneRule: the rule the zone match in `initialize_nftables` produces for
one interface of the given zone. -/
def zoneRule (zone iface : String) : Stmt :=
  if zone = "wan" then wanRule iface
  else if zone = "lan" then lanRule iface
  else otherRule iface

/-- zoneGroupStmts: the rules the `match zone.as_str()` arm adds for one
zone group (wan / lan / default arm, in source order within the group). -/
def zoneGroupStmts (zone : String) (interfaces : List String) : List Stmt :=
  if zone = "wan" then interfaces.map wanRule
  else if zone = "lan" then interfaces.map lanRule
  else interfaces.map otherRule

/-- addToZone models `zone_interfaces.entry(zone).or_insert_with(Vec::new)
.push(name)` on an insertion-ordered association list. -/
def addToZone (acc : List (String × List String)) (zone name : String) :
    List (String × List String) :=
  match acc with
  | [] => [(zone, [name])]
  | (z, ns) :: rest =>
      if z = zone then (z, ns ++ [name]) :: rest
      else (z, ns) :: addToZone rest zone name

/-- zone_interfaces: group interface names by zone label, skipping
interfaces with no `nftables_zone` (the grouping loop of
`initialize_nftables`). -/
def zone_interfaces (ifaces : List InterfaceConfig) : List (String × List String) :=
  ifaces.foldl
    (fun acc c =>
      match c.nftables_zone with
      | some z => addToZone acc z c.name
      | none => acc)
    []

/-- zoneStmts: all zone-derived rules of `initialize_nftables`, in group
iteration order. -/
def zoneStmts (ifaces : List InterfaceConfig) : List Stmt :=
  ((zone_interfaces ifaces).map (fun g => zoneGroupStmts g.1 g.2)).flatten

/-- chainAdd: one of the three base-chain creation statements of
`initialize_nftables`. -/
def chainAdd (p : String × String) : Stmt :=
  .AddChain ⟨.Inet, "filter", p.1, none, some p.2⟩

/-- baseChains: the `chains` vector of `initialize_nftables`. -/
def baseChains : List (String × String) :=
  [("input", "type filter hook input priority 0; policy drop;"),
   ("forward", "type filter hook forward priority 0; policy drop;"),
   ("output", "type filter hook output priority 0; policy accept;")]

/-- ctEstablishedRule: baseline rule `ct state { established, related }
accept` on the input chain. -/
def ctEstablishedRule : Stmt :=
  .Add ⟨.Inet, "filter", "input", none, none,
    [.Match "ct" (.Cmp "state" (.Set ["established", "related"])), .Accept]⟩

/-- loopbackRule: baseline rule `meta iifname lo accept` on the input
chain. -/
def loopbackRule : Stmt :=
  .Add ⟨.Inet, "filter", "input", none, none, [iifnameMatch "lo", .Accept]⟩

/-- initStmts: the statements `initialize_nftables` adds to its fresh
batch, in source order: flush, table, the three chains, the two baseline
rules, then the zone-derived rules. -/
def initStmts (ifaces : List InterfaceConfig) : List Stmt :=
  [.Flush (.Table .Inet "filter"), .AddTable ⟨.Inet, "filter"⟩] ++
    baseChains.map chainAdd ++
    [ctEstablishedRule, loopbackRule] ++
    zoneStmts ifaces

/-- initialize_nftables: build a brand-new batch from the stored interface
configuration and replace the stored batch wholesale (the source assigns
`self.nftables_handle = batch.clone()` and returns `Ok(())`). -/
def initialize_nftables (m : NetworkManager) : NetworkManager :=
  { m with nftables_handle := (initStmts m.interfaces).foldl (fun b s => batchAdd b s none) [] }

/-- strToLower models `str::to_lowercase` (ASCII case folding; every action
string the code compares against is ASCII). -/
def strToLower (s : String) : String :=
  ⟨s.data.map (fun c => if 'A' ≤ c ∧ c ≤ 'Z' then Char.ofNat (c.toNat + 32) else c)⟩

/-- actionExpr: the `match action.to_lowercase().as_str()` of
`add_firewall_rule` — `accept`/`drop` give the terminal expression, any
other action is unsupported (`None`). -/
def actionExpr (action : String) : Option Expr :=
  if strToLower action = "accept" then some .Accept
  else if strToLower action = "drop" then some .Drop
  else none

/-- protoMatcher: the protocol matcher of `add_firewall_rule`, pushed only
when the protocol is neither empty nor `"any"`. -/
def protoMatcher (protocol : String) : List Expr :=
  if protocol ≠ "" ∧ protocol ≠ "any" then
    [.Match protocol (.Cmp "protocol" (.StrVal protocol))]
  else []

/-- portMatcher: the destination-port matcher of `add_firewall_rule`,
pushed only when a port is given; its operator is the protocol argument
verbatim. -/
def portMatcher (protocol : String) (port : Option Nat) : List Expr :=
  match port with
  | some p => [.Match protocol (.Cmp "dport" (.StrVal (Nat.repr p)))]
  | none => []

/-- sourceMatcher: the source-address matcher of `add_firewall_rule`,
pushed only when a source is given. -/
def sourceMatcher (source : Option String) : List Expr :=
  match source with
  | some s => [.Match "ip" (.Cmp "saddr" (.StrVal s))]
  | none => []

/-- addRuleStmt: the rule statement `add_firewall_rule` appends — protocol
matcher, port matcher, source matcher, counter, then the action. -/
def addRuleStmt (chain protocol : String) (port : Option Nat) (source : Option String)
    (act : Expr) : Stmt :=
  .Add ⟨.Inet, "filter", chain, none, none,
    protoMatcher protocol ++ portMatcher protocol port ++ sourceMatcher source ++
      [.Counter, act]⟩

/-- add_firewall_rule: clone the stored batch, append one rule, and store
the clone back; an unsupported action returns early with
`Unsupported action: ...` and leaves the manager untouched. -/
def add_firewall_rule (m : NetworkManager) (chain protocol : String) (port : Option Nat)
    (source : Option String) (action : String) : Except String Unit × NetworkManager :=
  match actionExpr action with
  | none => (Except.error ("Unsupported action: " ++ action), m)
  | some act =>
      (Except.ok (),
       { m with nftables_handle :=
          batchAdd m.nftables_handle (addRuleStmt chain protocol port source act) none })

/-- delete_firewall_rule: the source only logs the handle and returns
`Ok(())` — no lookup, no removal, no failure. -/
def delete_firewall_rule (m : NetworkManager) (_rule_handle : Nat) :
    Except String Unit × NetworkManager :=
  (Except.ok (), m)

/-- Ipv4Addr: a parsed IPv4 address (the code parses the address half of
`ip/prefix` with `str::parse` into an `IpAddr` and installs it with
`IpVersion::V4`; the model covers the IPv4 dotted-quad form). -/
structure Ipv4Addr where
  o1 : Nat
  o2 : Nat
  o3 : Nat
  o4 : Nat
deriving DecidableEq

/-- renderIp is the `Display` form of an IPv4 address, used when
`get_interfaces` formats a kernel address. -/
def renderIp (ip : Ipv4Addr) : String :=
  Nat.repr ip.o1 ++ "." ++ Nat.repr ip.o2 ++ "." ++ Nat.repr ip.o3 ++ "." ++ Nat.repr ip.o4

/-- KIface: one kernel link as seen over netlink — its index, name,
operational state and hardware address (the colon-hex formatting of the
source is kept abstract as a string; no claim touches it). -/
structure KIface where
  index : Nat
  name : String
  is_up : Bool
  mac_address : String
deriving DecidableEq

/-- KernelState: the kernel side of the netlink channel — the link table
and the address table (link index, address, prefix length). -/
structure KernelState where
  links : List KIface
  addrs : List (Nat × Ipv4Addr × Nat)
deriving DecidableEq

/-- InterfaceInfo from `network.rs`: observed kernel state returned by
`get_interfaces`. -/
structure InterfaceInfo where
  name : String
  addresses : List String
  is_up : Bool
  mac_address : String
deriving DecidableEq

/-- findIfIndex: the first link whose name matches, as
`link().get().match_name(name)` returns it. -/
def findIfIndex (k : KernelState) (name : String) : Option Nat :=
  (k.links.find? (fun l => l.name == name)).map KIface.index

/-- get_interface_index: resolve a name to a kernel index, failing with
`Interface not found: ...` when no link matches. -/
def get_interface_index (k : KernelState) (name : String) : Except String Nat :=
  match findIfIndex k name with
  | some i => Except.ok i
  | none => Except.error ("Interface not found: " ++ name)

/-- setLinkUp: the `link().set(if_index).up()` mutation. -/
def setLinkUp (k : KernelState) (if_index : Nat) : KernelState :=
  { k with links := k.links.map (fun l => if l.index = if_index then { l with is_up := true } else l) }

/-- splitChar models `str::split(c)`: split a character list at every
occurrence of the separator (adjacent separators yield empty pieces). -/
def splitChar (c : Char) : List Char → List (List Char)
  | [] => [[]]
  | x :: xs =>
      let r := splitChar c xs
      if x = c then [] :: r
      else
        match r with
        | [] => [[x]]
        | y :: ys => (x :: y) :: ys

/-- splitOnChar: `str::split(c).collect::<Vec<_>>()` on a string. -/
def splitOnChar (s : String) (c : Char) : List String :=
  (splitChar c s.data).map (fun l => ⟨l⟩)

/-- parseOctet models `u8::from_str` as used inside IPv4 address parsing:
one to three digits, no leading zero, value at most 255. -/
def parseOctet (s : String) : Option Nat :=
  match s.data with
  | [] => none
  | c :: rest =>
      if (c :: rest).all Char.isDigit ∧ (c = '0' → rest = []) ∧ (c :: rest).length ≤ 3 then
        let n := (c :: rest).foldl (fun acc ch => acc * 10 + (ch.toNat - '0'.toNat)) 0
        if n ≤ 255 then some n else none
      else none

/-- parseIPv4 models `str::parse::<IpAddr>` on dotted-quad IPv4 input:
exactly four octets separated by dots. -/
def parseIPv4 (s : String) : Option Ipv4Addr :=
  match splitOnChar s '.' with
  | [a, b, c, d] =>
      match parseOctet a, parseOctet b, parseOctet c, parseOctet d with
      | some x, some y, some z, some w => some ⟨x, y, z, w⟩
      | _, _, _, _ => none
  | _ => none

/-- parseU8 models `str::parse::<u8>` for the prefix length: an optional
leading plus sign, then one or more digits, value at most 255. -/
def parseU8 (s : String) : Option Nat :=
  let ds := match s.data with
    | '+' :: rest => rest
    | l => l
  match ds with
  | [] => none
  | _ =>
      if ds.all Char.isDigit then
        let n := ds.foldl (fun acc ch => acc * 10 + (ch.toNat - '0'.toNat)) 0
        if n ≤ 255 then some n else none
      else none

/-- setup_interface: resolve the interface, bring the link up, and when a
static address is configured parse `ip/prefix`, delete every address on
the link, and add the requested one.  The returned state is the kernel
state after every netlink message issued before the return point, so a
parse failure still leaves the link brought up. -/
def setup_interface (k : KernelState) (config : InterfaceConfig) :
    Except String Unit × KernelState :=
  match get_interface_index k config.name with
  | Except.error e => (Except.error e, k)
  | Except.ok if_index =>
      let k1 := setLinkUp k if_index
      match config.address with
      | none => (Except.ok (), k1)
      | some addr =>
          let addr_parts := splitOnChar addr '/'
          if addr_parts.length ≠ 2 then
            (Except.error ("Invalid address format, expected IP/PREFIX: " ++ addr), k1)
          else
            match parseIPv4 (addr_parts.getD 0 "") with
            | none => (Except.error ("Invalid IP address: " ++ addr_parts.getD 0 ""), k1)
            | some ip =>
                match parseU8 (addr_parts.getD 1 "") with
                | none =>
                    (Except.error ("Invalid prefix length: " ++ addr_parts.getD 1 ""), k1)
                | some prefix_len =>
                    (Except.ok (),
                     { k1 with addrs :=
                        k1.addrs.filter (fun a => a.1 != if_index) ++ [(if_index, ip, prefix_len)] })

/-- get_interfaces: list every link, then attach each kernel address to
the interface whose resolved index matches, formatted `ip/prefix`. -/
def get_interfaces (k : KernelState) : List InterfaceInfo :=
  k.links.map (fun l =>
    { name := l.name,
      addresses :=
        (k.addrs.filter (fun a => findIfIndex k l.name == some a.1)).map
          (fun a => renderIp a.2.1 ++ "/" ++ Nat.repr a.2.2),
      is_up := l.is_up,
      mac_address := l.mac_address })

/-- addrParses: the address string passes all three parsing steps of
`setup_interface` (two `/`-separated parts, valid IP, valid prefix). -/
def addrParses (a : String) : Bool :=
  match splitOnChar a '/' with
  | [x, y] => (parseIPv4 x).isSome && (parseU8 y).isSome
  | _ => false

/-- strStartsWith: string prefix test on the underlying character lists. -/
def strStartsWith (s pre : String) : Bool :=
  pre.data.isPrefixOf s.data

/-- isFlushOf: the statement flushes the given table. -/
def isFlushOf (family : TableFamily) (table : String) (s : Stmt) : Bool :=
  match s with
  | .Flush (.Table f n) => f == family && n == table
  | _ => false

/-- isTableAdd: the statement creates the given table. -/
def isTableAdd (family : TableFamily) (table : String) (s : Stmt) : Bool :=
  match s with
  | .AddTable t => t.family == family && t.name == table
  | _ => false

/-- isChainAdd: the statement creates the given chain of the given table. -/
def isChainAdd (family : TableFamily) (table chain : String) (s : Stmt) : Bool :=
  match s with
  | .AddChain c => c.family == family && c.table == table && c.name == chain
  | _ => false

/-- okStmt: the statement is order-consistent with respect to the batch
prefix before it — a table creation is preceded by the flush of that table,
a chain creation by its table's creation, and a rule-add by the creation of
both the table and the chain it references. -/
def okStmt (pre : List Stmt) : Stmt → Bool
  | .AddTable t => pre.any (isFlushOf t.family t.name)
  | .AddChain c => pre.any (isTableAdd c.family c.table)
  | .Add a => pre.any (isTableAdd a.family a.table) && pre.any (isChainAdd a.family a.table a.chain)
  | .Flush _ => true

/-- ocGo: check order consistency of a statement list against an already
seen prefix. -/
def ocGo (pre : List Stmt) : List Stmt → Bool
  | [] => true
  | s :: rest => okStmt pre s && ocGo (pre ++ [s]) rest

/-- orderConsistent: every statement of the batch is order-consistent with
the statements before it. -/
def orderConsistent (l : List Stmt) : Bool :=
  ocGo [] l

/-- hasTable: the batch creates `inet filter`. -/
def hasTable (l : List Stmt) : Bool :=
  l.any (isTableAdd .Inet "filter")

/-- hasChain: the batch creates the given chain of `inet filter`. -/
def hasChain (chain : String) (l : List Stmt) : Bool :=
  l.any (isChainAdd .Inet "filter" chain)

/-- BatchReachable: the statement sequences whose renderings the stored
batch can hold after any sequence of `initialize_nftables` and successful
`add_firewall_rule` calls, starting from the empty batch of
`NetworkManager::new`. -/
inductive BatchReachable : List Stmt → Prop where
  | new : BatchReachable []
  | init (prev : List Stmt) (h : BatchReachable prev) (ifaces : List InterfaceConfig) :
      BatchReachable (initStmts ifaces)
  | add (prev : List Stmt) (h : BatchReachable prev) (chain protocol : String)
      (port : Option Nat) (source : Option String) (action : String) (act : Expr)
      (hact : actionExpr action = some act) :
      BatchReachable (prev ++ [addRuleStmt chain protocol port source act])

/-- InitReachable: the statement sequences reachable from a freshly
initialized batch by successful `add_firewall_rule` calls that target one
of the three created base chains. -/
inductive InitReachable : List Stmt → Prop where
  | init (ifaces : List InterfaceConfig) : InitReachable (initStmts ifaces)
  | add (prev : List Stmt) (h : InitReachable prev) (chain protocol : String)
      (port : Option Nat) (source : Option String) (action : String) (act : Expr)
      (hact : actionExpr action = some act)
      (hchain : chain = "input" ∨ chain = "forward" ∨ chain = "output") :
      InitReachable (prev ++ [addRuleStmt chain protocol port source act])

/-- noNl: the string contains no newline, so it renders as a single line
of the generated script. -/
def noNl (s : String) : Bool :=
  s.data.all (fun c => c != '\n')

/-- dataClean: every embedded string of the operand is newline-free. -/
def dataClean : Data → Bool
  | .Set items => items.all noNl
  | .StrVal v => noNl v
  | .NumVal _ => true

/-- exprClean: every embedded string of the expression is newline-free
(the well-typedness condition under which a statement renders to exactly
one script line). -/
def exprClean : Expr → Bool
  | .Match op e => noNl op && exprClean e
  | .Cmp op d => noNl op && dataClean d
  | .Accept => true
  | .Drop => true
  | .Counter => true

/-- stmtClean: every embedded string of the statement is newline-free. -/
def stmtClean : Stmt → Bool
  | .AddTable t => noNl t.name
  | .AddChain c =>
      noNl c.table && noNl c.name &&
        (match c.constraint with
         | some con => noNl con
         | none => true)
  | .Add a => noNl a.table && noNl a.chain && a.expr.all exprClean
  | .Flush (.Table _ n) => noNl n
  | .Flush (.Chain _ t n) => noNl t && noNl n

/-- sepJoin: joining a list of strings with a separator between adjacent
items — the specification's "rendered in evaluation order separated by a
single space" shape. -/
def sepJoin (sep : String) : List String → String
  | [] => ""
  | [x] => x
  | x :: y :: xs => x ++ sep ++ sepJoin sep (y :: xs)

/-- tailJoin: a separator-prefixed join, the shape produced by the
rendering loop after its first item. -/
def tailJoin (sep : String) : List String → String
  | [] => ""
  | x :: xs => sep ++ x ++ tailJoin sep xs

deriving instance DecidableEq for Except

/-! ### Helper lemmas -/

theorem noNl_append (a b : String) : noNl (a ++ b) = (noNl a && noNl b) := by
  simp [noNl, List.all_append]

theorem sepJoin_cons (sep x : String) (xs : List String) :
    sepJoin sep (x :: xs) = x ++ tailJoin sep xs := by
  induction xs generalizing x with
  | nil => simp [sepJoin, tailJoin]
  | cons y ys ih => simp [sepJoin, tailJoin, ih, String.append_assoc]

theorem writeJoin_loop (sep : String) (l : List String) :
    ∀ a : String,
      (l.foldl (fun acc s => (acc.1 ++ (if acc.2 then "" else sep) ++ s, false)) (a, false)).1 =
        a ++ tailJoin sep l := by
  induction l with
  | nil => intro a; simp [tailJoin]
  | cons x xs ih =>
      intro a
      rw [List.foldl_cons]
      have hstep : (((a, false).1 ++ if (a, false).2 = true then "" else sep) ++ x, false) =
          ((a ++ sep) ++ x, false) := by simp
      rw [hstep, ih]
      simp [tailJoin, String.append_assoc]

theorem writeJoin_eq_sepJoin (sep : String) (l : List String) :
    writeJoin sep l = sepJoin sep l := by
  cases l with
  | nil => rfl
  | cons x xs => simp [writeJoin, writeJoin_loop, sepJoin_cons]

theorem tailJoin_noNl (sep : String) (hsep : noNl sep = true) :
    ∀ l : List String, (∀ s ∈ l, noNl s = true) → noNl (tailJoin sep l) = true := by
  intro l
  induction l with
  | nil => intro _; rfl
  | cons x xs ih =>
      intro h
      simp only [tailJoin, noNl_append, Bool.and_eq_true]
      exact ⟨⟨hsep, h x (by simp)⟩, ih (fun s hs => h s (by simp [hs]))⟩

theorem writeJoin_noNl (sep : String) (hsep : noNl sep = true) (l : List String)
    (h : ∀ s ∈ l, noNl s = true) : noNl (writeJoin sep l) = true := by
  rw [writeJoin_eq_sepJoin]
  cases l with
  | nil => rfl
  | cons x xs =>
      rw [sepJoin_cons, noNl_append]
      simp only [Bool.and_eq_true]
      exact ⟨h x (by simp), tailJoin_noNl sep hsep xs (fun s hs => h s (by simp [hs]))⟩

theorem digitChar_ne_nl (n : Nat) : Nat.digitChar n ≠ '\n' := by
  match n with
  | 0 | 1 | 2 | 3 | 4 | 5 | 6 | 7 | 8 | 9 | 10 | 11 | 12 | 13 | 14 | 15 => decide
  | n + 16 =>
      unfold Nat.digitChar
      repeat rw [if_neg (by omega)]
      decide

theorem toDigitsCore_ne_nl (b : Nat) :
    ∀ (fuel n : Nat) (ds : List Char), (∀ c ∈ ds, c ≠ '\n') →
      ∀ c ∈ Nat.toDigitsCore b fuel n ds, c ≠ '\n' := by
  intro fuel
  induction fuel with
  | zero =>
      intro n ds h c hc
      unfold Nat.toDigitsCore at hc
      exact h c hc
  | succ f ih =>
      intro n ds h c hc
      unfold Nat.toDigitsCore at hc
      by_cases hz : n / b = 0
      · simp only [hz, if_pos rfl] at hc
        rcases List.mem_cons.mp hc with h1 | h2
        · exact h1 ▸ digitChar_ne_nl _
        · exact h c h2
      · simp only [if_neg hz] at hc
        refine ih (n / b) (Nat.digitChar (n % b) :: ds) ?_ c hc
        intro c' hc'
        rcases List.mem_cons.mp hc' with h1 | h2
        · exact h1 ▸ digitChar_ne_nl _
        · exact h c' h2

theorem natRepr_noNl (n : Nat) : noNl (Nat.repr n) = true := by
  have h := toDigitsCore_ne_nl 10 (n + 1) n [] (by intro c hc; simp at hc)
  simp only [noNl, Nat.repr, Nat.toDigits, List.asString, List.all_eq_true, bne_iff_ne, ne_eq]
  intro c hc
  exact h c hc

theorem renderFamily_noNl (f : TableFamily) : noNl (renderFamily f) = true := by
  cases f <;> decide

theorem renderExpr_noNl : ∀ e : Expr, exprClean e = true → noNl (renderExpr e) = true := by
  intro e
  induction e with
  | Match op e ih =>
      intro h
      simp only [exprClean, Bool.and_eq_true] at h
      simp only [renderExpr, noNl_append, Bool.and_eq_true]
      exact ⟨⟨h.1, by decide⟩, ih h.2⟩
  | Cmp op d =>
      intro h
      simp only [exprClean, Bool.and_eq_true] at h
      cases d with
      | Set items =>
          simp only [renderExpr, noNl_append, Bool.and_eq_true]
          refine ⟨⟨⟨h.1, by decide⟩, ?_⟩, by decide⟩
          refine writeJoin_noNl ", " (by decide) items ?_
          intro s hs
          have := h.2
          simp only [dataClean, List.all_eq_true] at this
          exact this s hs
      | StrVal v =>
          simp only [renderExpr, noNl_append, Bool.and_eq_true]
          exact ⟨⟨h.1, by decide⟩, h.2⟩
      | NumVal n =>
          simp only [renderExpr, noNl_append, Bool.and_eq_true]
          exact ⟨⟨h.1, by decide⟩, natRepr_noNl n⟩
  | Accept => intro _; decide
  | Drop => intro _; decide
  | Counter => intro _; decide

theorem renderStmt_noNl : ∀ s : Stmt, stmtClean s = true → noNl (renderStmt s) = true := by
  intro s
  cases s with
  | AddTable t =>
      intro h
      simp only [stmtClean] at h
      simp only [renderStmt, noNl_append, Bool.and_eq_true]
      exact ⟨⟨⟨by decide, renderFamily_noNl _⟩, by decide⟩, h⟩
  | AddChain c =>
      intro h
      simp only [stmtClean, Bool.and_eq_true] at h
      cases hc : c.constraint with
      | some con =>
          rw [hc] at h
          simp only [renderStmt, hc, noNl_append, Bool.and_eq_true]
          exact ⟨⟨⟨⟨⟨⟨⟨by decide, renderFamily_noNl _⟩, by decide⟩, h.1.1⟩, by decide⟩,
            h.1.2⟩, by decide⟩, h.2⟩
      | none =>
          simp only [renderStmt, hc, noNl_append, Bool.and_eq_true]
          exact ⟨⟨⟨⟨⟨by decide, renderFamily_noNl _⟩, by decide⟩, h.1.1⟩, by decide⟩, h.1.2⟩
  | Add a =>
      intro h
      simp only [stmtClean, Bool.and_eq_true] at h
      simp only [renderStmt, noNl_append, Bool.and_eq_true]
      refine ⟨⟨⟨⟨⟨⟨⟨by decide, renderFamily_noNl _⟩, by decide⟩, h.1.1⟩, by decide⟩,
        h.1.2⟩, by decide⟩, ?_⟩
      refine writeJoin_noNl " " (by decide) _ ?_
      intro r hr
      rcases List.mem_map.mp hr with ⟨e, he, rfl⟩
      have hall := h.2
      simp only [List.all_eq_true] at hall
      exact renderExpr_noNl e (hall e he)
  | Flush f =>
      intro h
      cases f with
      | Table family name =>
          simp only [stmtClean] at h
          simp only [renderStmt, noNl_append, Bool.and_eq_true]
          exact ⟨⟨⟨by decide, renderFamily_noNl _⟩, by decide⟩, h⟩
      | Chain family table name =>
          simp only [stmtClean, Bool.and_eq_true] at h
          simp only [renderStmt, noNl_append, Bool.and_eq_true]
          exact ⟨⟨⟨⟨⟨by decide, renderFamily_noNl _⟩, by decide⟩, h.1⟩, by decide⟩, h.2⟩

theorem zoneGroupStmts_eq (z : String) (ns : List String) :
    zoneGroupStmts z ns = ns.map (zoneRule z) := by
  unfold zoneGroupStmts zoneRule
  by_cases h1 : z = "wan"
  · simp [h1]
  · by_cases h2 : z = "lan" <;> simp [h1, h2]

/-- ruleOf: the zone rule one interface configuration contributes (none if
it carries no zone label). -/
def ruleOf (c : InterfaceConfig) : Option Stmt :=
  c.nftables_zone.map (fun z => zoneRule z c.name)

theorem addToZone_flatten (z n : String) :
    ∀ acc : List (String × List String),
      List.Perm ((addToZone acc z n).map (fun g => zoneGroupStmts g.1 g.2)).flatten
        ((acc.map (fun g => zoneGroupStmts g.1 g.2)).flatten ++ [zoneRule z n]) := by
  intro acc
  induction acc with
  | nil => simp [addToZone, zoneGroupStmts_eq]
  | cons g rest ih =>
      obtain ⟨zg, ns⟩ := g
      by_cases h : zg = z
      · subst h
        rw [show addToZone ((zg, ns) :: rest) zg n = (zg, ns ++ [n]) :: rest from by
          simp [addToZone]]
        simp only [List.map_cons, List.flatten_cons]
        rw [zoneGroupStmts_eq zg (ns ++ [n]), zoneGroupStmts_eq zg ns, List.map_append,
          List.map_cons, List.map_nil, List.append_assoc, List.append_assoc]
        exact List.Perm.append_left _ List.perm_append_comm
      · simp only [addToZone, if_neg h, List.map_cons, List.flatten_cons]
        have := ih.append_left (zoneGroupStmts zg ns)
        simpa [List.append_assoc] using this

theorem zone_interfaces_flatten (ifaces : List InterfaceConfig) :
    ∀ acc : List (String × List String),
      List.Perm ((ifaces.foldl
          (fun acc c =>
            match c.nftables_zone with
            | some z => addToZone acc z c.name
            | none => acc)
          acc).map (fun g => zoneGroupStmts g.1 g.2)).flatten
        ((acc.map (fun g => zoneGroupStmts g.1 g.2)).flatten ++ ifaces.filterMap ruleOf) := by
  induction ifaces with
  | nil => intro acc; simp
  | cons c rest ih =>
      intro acc
      rw [List.foldl_cons]
      cases hz : c.nftables_zone with
      | none =>
          simp only [hz]
          have := ih acc
          simpa [List.filterMap_cons, ruleOf, hz] using this
      | some z =>
          simp only [hz]
          have h1 := ih (addToZone acc z c.name)
          have h2 := (addToZone_flatten z c.name acc).append_right (rest.filterMap ruleOf)
          have h3 := h1.trans h2
          simpa [List.filterMap_cons, ruleOf, hz, List.append_assoc] using h3

theorem zoneStmts_perm (ifaces : List InterfaceConfig) :
    List.Perm (zoneStmts ifaces) (ifaces.filterMap ruleOf) := by
  have := zone_interfaces_flatten ifaces []
  simpa [zoneStmts, zone_interfaces] using this

theorem count_filterMap {α β : Type} [DecidableEq β] (f : α → Option β) (b : β) :
    ∀ l : List α,
      (l.filterMap f).count b = l.countP (fun a => f a == some b) := by
  intro l
  induction l with
  | nil => rfl
  | cons a t ih =>
      cases hf : f a with
      | none => simp [List.filterMap_cons, hf, ih, List.countP_cons]
      | some x =>
          simp [List.filterMap_cons, hf, List.count_cons, ih, List.countP_cons]

theorem mem_key_unique {α : Type} (key : α → String) :
    ∀ (l : List α), (l.map key).Nodup →
      ∀ x c, x ∈ l → c ∈ l → key x = key c → x = c := by
  intro l
  induction l with
  | nil => intro _ x c hx; exact absurd hx (List.not_mem_nil x)
  | cons a t ih =>
      intro hnd x c hx hc hk
      rw [List.map_cons, List.nodup_cons] at hnd
      rcases List.mem_cons.mp hx with rfl | hx'
      · rcases List.mem_cons.mp hc with rfl | hc'
        · rfl
        · exact absurd (hk ▸ List.mem_map_of_mem key hc') hnd.1
      · rcases List.mem_cons.mp hc with rfl | hc'
        · exact absurd (hk ▸ List.mem_map_of_mem key hx') hnd.1
        · exact ih hnd.2 x c hx' hc' hk

theorem countP_eq_one_key {α : Type} (key : α → String) (p : α → Bool) :
    ∀ (l : List α), (l.map key).Nodup →
      ∀ c, c ∈ l → p c = true → (∀ x, p x = true → key x = key c) →
        l.countP p = 1 := by
  intro l
  induction l with
  | nil => intro _ c hc; exact absurd hc (List.not_mem_nil c)
  | cons a t ih =>
      intro hnd c hc hpc himp
      rw [List.map_cons, List.nodup_cons] at hnd
      rcases List.mem_cons.mp hc with rfl | hc'
      · rw [List.countP_cons_of_pos p t hpc]
        have ht : t.countP p = 0 := by
          rw [List.countP_eq_zero]
          intro x hx hpx
          exact hnd.1 (himp x hpx ▸ List.mem_map_of_mem key hx)
        omega
      · have hpa : ¬ p a = true := by
          intro hpa
          have := himp a hpa
          exact hnd.1 (this ▸ List.mem_map_of_mem key hc')
        rw [List.countP_cons_of_neg p t hpa]
        exact ih hnd.2 c hc' hpc himp

theorem zoneRule_eq_wanRule_iff (z m n : String) :
    zoneRule z m = wanRule n ↔ z = "wan" ∧ m = n := by
  unfold zoneRule
  by_cases h1 : z = "wan"
  · simp [h1, wanRule, iifnameMatch]
  · by_cases h2 : z = "lan" <;> simp [h1, h2, wanRule, lanRule, otherRule, iifnameMatch]

theorem zoneRule_eq_lanRule_iff (z m n : String) :
    zoneRule z m = lanRule n ↔ z = "lan" ∧ m = n := by
  unfold zoneRule
  by_cases h1 : z = "wan"
  · simp [h1, wanRule, lanRule, iifnameMatch]
  · by_cases h2 : z = "lan" <;> simp [h1, h2, wanRule, lanRule, otherRule, iifnameMatch]

theorem zoneRule_eq_otherRule_iff (z m n : String) :
    zoneRule z m = otherRule n ↔ z ≠ "wan" ∧ z ≠ "lan" ∧ m = n := by
  unfold zoneRule
  by_cases h1 : z = "wan"
  · simp [h1, wanRule, otherRule, iifnameMatch]
  · by_cases h2 : z = "lan" <;> simp [h1, h2, wanRule, lanRule, otherRule, iifnameMatch]

theorem find_map_up (i : Nat) (n : String) :
    ∀ links : List KIface,
      ((links.map (fun l => if l.index = i then { l with is_up := true } else l)).find?
          (fun l => l.name == n)).map KIface.index =
        (links.find? (fun l => l.name == n)).map KIface.index := by
  intro links
  induction links with
  | nil => rfl
  | cons l t ih =>
      have hname : (if l.index = i then { l with is_up := true } else l).name = l.name := by
        by_cases hi : l.index = i <;> simp [hi]
      have hidx : (if l.index = i then { l with is_up := true } else l).index = l.index := by
        by_cases hi : l.index = i <;> simp [hi]
      rw [List.map_cons]
      by_cases hn : l.name = n
      · rw [List.find?_cons_of_pos _ (by rw [hname, hn]; simp),
          List.find?_cons_of_pos _ (by rw [hn]; simp)]
        simp [hidx]
      · rw [List.find?_cons_of_neg _ (by rw [hname]; simp [hn]),
          List.find?_cons_of_neg _ (by simp [hn])]
        exact ih

theorem findIfIndex_setLinkUp (k : KernelState) (i : Nat) (n : String) :
    findIfIndex (setLinkUp k i) n = findIfIndex k n := by
  unfold findIfIndex setLinkUp
  exact find_map_up i n k.links

theorem isPrefixOf_append_self : ∀ (l r : List Char), l.isPrefixOf (l ++ r) = true := by
  intro l r
  induction l with
  | nil => simp
  | cons c cs ih => simp [List.isPrefixOf, ih]

theorem strStartsWith_append (p s : String) : strStartsWith (p ++ s) p = true := by
  unfold strStartsWith
  rw [String.data_append]
  exact isPrefixOf_append_self p.data s.data

theorem ocGo_append (l1 : List Stmt) :
    ∀ (pre l2 : List Stmt), ocGo pre (l1 ++ l2) = (ocGo pre l1 && ocGo (pre ++ l1) l2) := by
  induction l1 with
  | nil => intro pre l2; simp [ocGo]
  | cons s t ih =>
      intro pre l2
      simp only [List.cons_append, ocGo, List.append_eq]
      rw [ih (pre ++ [s]) l2]
      simp [Bool.and_assoc, List.append_assoc]

theorem zoneRule_shape (z n : String) :
    ∃ ex, zoneRule z n = Stmt.Add ⟨.Inet, "filter", "input", none, none, ex⟩ := by
  unfold zoneRule
  by_cases h1 : z = "wan"
  · simp only [if_pos h1]; exact ⟨_, rfl⟩
  · by_cases h2 : z = "lan"
    · simp only [if_neg h1, if_pos h2]; exact ⟨_, rfl⟩
    · simp only [if_neg h1, if_neg h2]; exact ⟨_, rfl⟩

theorem zoneStmts_mem (ifaces : List InterfaceConfig) :
    ∀ s ∈ zoneStmts ifaces, ∃ z n, s = zoneRule z n := by
  intro s hs
  unfold zoneStmts at hs
  rcases List.mem_flatten.mp hs with ⟨l, hl, hsl⟩
  rcases List.mem_map.mp hl with ⟨g, hg, rfl⟩
  rw [zoneGroupStmts_eq] at hsl
  rcases List.mem_map.mp hsl with ⟨n, hn, rfl⟩
  exact ⟨g.1, n, rfl⟩

theorem ocGo_zone :
    ∀ (zs : List Stmt), (∀ s ∈ zs, ∃ z n, s = zoneRule z n) →
      ∀ pre, hasTable pre = true → hasChain "input" pre = true → ocGo pre zs = true := by
  intro zs
  induction zs with
  | nil => intro _ pre _ _; rfl
  | cons s t ih =>
      intro hz pre hT hC
      obtain ⟨z, n, rfl⟩ := hz s (by simp)
      obtain ⟨ex, hex⟩ := zoneRule_shape z n
      simp only [ocGo, Bool.and_eq_true]
      constructor
      · rw [hex]
        simp only [okStmt, Bool.and_eq_true]
        exact ⟨hT, hC⟩
      · refine ih (fun s hs => hz s (by simp [hs])) (pre ++ [zoneRule z n]) ?_ ?_
        · simp only [hasTable, List.any_append, Bool.or_eq_true]
          exact Or.inl hT
        · simp only [hasChain, List.any_append, Bool.or_eq_true]
          exact Or.inl hC

theorem initStmts_props (ifaces : List InterfaceConfig) :
    orderConsistent (initStmts ifaces) = true ∧
    hasTable (initStmts ifaces) = true ∧
    hasChain "input" (initStmts ifaces) = true ∧
    hasChain "forward" (initStmts ifaces) = true ∧
    hasChain "output" (initStmts ifaces) = true := by
  have h7 : initStmts ifaces =
      ([Stmt.Flush (Flush.Table .Inet "filter"), Stmt.AddTable ⟨.Inet, "filter"⟩,
        chainAdd ("input", "type filter hook input priority 0; policy drop;"),
        chainAdd ("forward", "type filter hook forward priority 0; policy drop;"),
        chainAdd ("output", "type filter hook output priority 0; policy accept;"),
        ctEstablishedRule, loopbackRule] : List Stmt) ++ zoneStmts ifaces := rfl
  rw [h7]
  refine ⟨?_, ?_, ?_, ?_, ?_⟩
  · unfold orderConsistent
    rw [ocGo_append]
    simp only [Bool.and_eq_true]
    constructor
    · decide
    · rw [List.nil_append]
      exact ocGo_zone (zoneStmts ifaces) (zoneStmts_mem ifaces) _ (by decide) (by decide)
  · simp only [hasTable, List.any_append, Bool.or_eq_true]
    exact Or.inl (by decide)
  · simp only [hasChain, List.any_append, Bool.or_eq_true]
    exact Or.inl (by decide)
  · simp only [hasChain, List.any_append, Bool.or_eq_true]
    exact Or.inl (by decide)
  · simp only [hasChain, List.any_append, Bool.or_eq_true]
    exact Or.inl (by decide)

theorem initReachable_props :
    ∀ l, InitReachable l →
      orderConsistent l = true ∧ hasTable l = true ∧
      hasChain "input" l = true ∧ hasChain "forward" l = true ∧ hasChain "output" l = true := by
  intro l h
  induction h with
  | init ifaces => exact initStmts_props ifaces
  | add prev hprev chain protocol port source action act hact hchain ih =>
      obtain ⟨hoc, hT, hI, hF, hO⟩ := ih
      have hok : okStmt prev (addRuleStmt chain protocol port source act) = true := by
        simp only [addRuleStmt, okStmt, Bool.and_eq_true]
        refine ⟨hT, ?_⟩
        rcases hchain with rfl | rfl | rfl
        · exact hI
        · exact hF
        · exact hO
      refine ⟨?_, ?_, ?_, ?_, ?_⟩
      · unfold orderConsistent
        rw [ocGo_append]
        simp only [Bool.and_eq_true]
        refine ⟨hoc, ?_⟩
        rw [List.nil_append]
        simp only [ocGo, Bool.and_eq_true]
        exact ⟨hok, trivial⟩
      · simp only [hasTable, List.any_append, Bool.or_eq_true]
        exact Or.inl hT
      · simp only [hasChain, List.any_append, Bool.or_eq_true]
        exact Or.inl hI
      · simp only [hasChain, List.any_append, Bool.or_eq_true]
        exact Or.inl hF
      · simp only [hasChain, List.any_append, Bool.or_eq_true]
        exact Or.inl hO

theorem foldl_batchAdd (l : List Stmt) :
    ∀ b : List String, l.foldl (fun b s => batchAdd b s none) b = b ++ l.map renderStmt := by
  induction l with
  | nil => intro b; simp
  | cons s t ih => intro b; rw [List.foldl_cons, ih]; simp [batchAdd, List.append_assoc]

theorem zoneStmts_count (ifaces : List InterfaceConfig) (r : Stmt) :
    (zoneStmts ifaces).count r = ifaces.countP (fun c => ruleOf c == some r) := by
  rw [(zoneStmts_perm ifaces).count_eq, count_filterMap]

theorem ruleOf_eq_wan (x : InterfaceConfig) (n : String) :
    (ruleOf x == some (wanRule n)) = true ↔
      x.nftables_zone = some "wan" ∧ x.name = n := by
  rw [beq_iff_eq]
  cases hz : x.nftables_zone with
  | none => simp [ruleOf, hz]
  | some z => simp [ruleOf, hz, zoneRule_eq_wanRule_iff]

theorem ruleOf_eq_lan (x : InterfaceConfig) (n : String) :
    (ruleOf x == some (lanRule n)) = true ↔
      x.nftables_zone = some "lan" ∧ x.name = n := by
  rw [beq_iff_eq]
  cases hz : x.nftables_zone with
  | none => simp [ruleOf, hz]
  | some z => simp [ruleOf, hz, zoneRule_eq_lanRule_iff]

theorem ruleOf_eq_other (x : InterfaceConfig) (n : String) :
    (ruleOf x == some (otherRule n)) = true ↔
      (∃ z, x.nftables_zone = some z ∧ z ≠ "wan" ∧ z ≠ "lan") ∧ x.name = n := by
  rw [beq_iff_eq]
  cases hz : x.nftables_zone with
  | none => simp [ruleOf, hz]
  | some z => simp [ruleOf, hz, zoneRule_eq_otherRule_iff, and_assoc]

/-! ### Claim theorems -/

/-- C1: for every stored interface configuration (interface names are the
unique keys of the configuration store), the zone-derived rules of
`initialize_nftables` contain, for each interface labelled `"wan"`, exactly
one `iifname <if> tcp dport 22 accept` rule and no all-traffic rule for
that interface; for each interface labelled `"lan"`, exactly one
unrestricted `iifname <if> accept` rule; for each interface with any other
zone label, exactly one `iifname <if> tcp dport { 80, 443 } accept` rule
(unknown labels fall through to this case without error, as
`initialize_nftables` is total); and no zone rule at all for an interface
without a zone label. -/
theorem c1_zone_rule_derivation (ifaces : List InterfaceConfig)
    (hnd : (ifaces.map InterfaceConfig.name).Nodup) (c : InterfaceConfig) (hc : c ∈ ifaces) :
    (c.nftables_zone = some "wan" →
       (zoneStmts ifaces).count (wanRule c.name) = 1 ∧
       (zoneStmts ifaces).count (lanRule c.name) = 0) ∧
    (c.nftables_zone = some "lan" → (zoneStmts ifaces).count (lanRule c.name) = 1) ∧
    (∀ z : String, c.nftables_zone = some z → z ≠ "wan" → z ≠ "lan" →
       (zoneStmts ifaces).count (otherRule c.name) = 1) ∧
    (c.nftables_zone = none →
       (zoneStmts ifaces).count (wanRule c.name) = 0 ∧
       (zoneStmts ifaces).count (lanRule c.name) = 0 ∧
       (zoneStmts ifaces).count (otherRule c.name) = 0) := by
  refine ⟨?_, ?_, ?_, ?_⟩
  · intro hz
    constructor
    · rw [zoneStmts_count]
      refine countP_eq_one_key InterfaceConfig.name _ ifaces hnd c hc
        ((ruleOf_eq_wan c c.name).mpr ⟨hz, rfl⟩) ?_
      intro x hpx
      exact ((ruleOf_eq_wan x c.name).mp hpx).2
    · rw [zoneStmts_count, List.countP_eq_zero]
      intro x hx hpx
      have h2 := (ruleOf_eq_lan x c.name).mp hpx
      have hxc := mem_key_unique InterfaceConfig.name ifaces hnd x c hx hc h2.2
      rw [hxc] at h2
      rw [h2.1] at hz
      exact absurd hz (by decide)
  · intro hz
    rw [zoneStmts_count]
    refine countP_eq_one_key InterfaceConfig.name _ ifaces hnd c hc
      ((ruleOf_eq_lan c c.name).mpr ⟨hz, rfl⟩) ?_
    intro x hpx
    exact ((ruleOf_eq_lan x c.name).mp hpx).2
  · intro z hz hzw hzl
    rw [zoneStmts_count]
    refine countP_eq_one_key InterfaceConfig.name _ ifaces hnd c hc
      ((ruleOf_eq_other c c.name).mpr ⟨⟨z, hz, hzw, hzl⟩, rfl⟩) ?_
    intro x hpx
    exact ((ruleOf_eq_other x c.name).mp hpx).2
  · intro hz
    refine ⟨?_, ?_, ?_⟩
    · rw [zoneStmts_count, List.countP_eq_zero]
      intro x hx hpx
      have h2 := (ruleOf_eq_wan x c.name).mp hpx
      have hxc := mem_key_unique InterfaceConfig.name ifaces hnd x c hx hc h2.2
      rw [hxc] at h2
      rw [h2.1] at hz
      exact absurd hz (by decide)
    · rw [zoneStmts_count, List.countP_eq_zero]
      intro x hx hpx
      have h2 := (ruleOf_eq_lan x c.name).mp hpx
      have hxc := mem_key_unique InterfaceConfig.name ifaces hnd x c hx hc h2.2
      rw [hxc] at h2
      rw [h2.1] at hz
      exact absurd hz (by decide)
    · rw [zoneStmts_count, List.countP_eq_zero]
      intro x hx hpx
      have h2 := (ruleOf_eq_other x c.name).mp hpx
      have hxc := mem_key_unique InterfaceConfig.name ifaces hnd x c hx hc h2.2
      rcases h2.1 with ⟨z, hz2, _, _⟩
      rw [hxc] at hz2
      exact absurd (hz2.symm.trans hz) (Option.some_ne_none z)

/-- C1 witness: on the concrete store
`[eth0 ↦ wan, eth1 ↦ lan, eth2 ↦ dmz, eth3 ↦ no zone]` the wan interface
gets exactly one ssh-accept rule and no all-traffic rule. -/
theorem c1_zone_rule_derivation_witness :
    (zoneStmts [⟨"eth0", none, none, some "wan"⟩, ⟨"eth1", none, none, some "lan"⟩,
        ⟨"eth2", none, none, some "dmz"⟩, ⟨"eth3", none, none, none⟩]).count
      (wanRule "eth0") = 1 ∧
    (zoneStmts [⟨"eth0", none, none, some "wan"⟩, ⟨"eth1", none, none, some "lan"⟩,
        ⟨"eth2", none, none, some "dmz"⟩, ⟨"eth3", none, none, none⟩]).count
      (lanRule "eth0") = 0 := by
  have h := c1_zone_rule_derivation
    [⟨"eth0", none, none, some "wan"⟩, ⟨"eth1", none, none, some "lan"⟩,
     ⟨"eth2", none, none, some "dmz"⟩, ⟨"eth3", none, none, none⟩]
    (by decide) ⟨"eth0", none, none, some "wan"⟩ (by decide)
  exact h.1 rfl

/-- C2: `initialize_nftables` replaces the stored batch wholesale with a
brand-new batch whose command lines are, in order, the renderings of: the
flush of table `inet filter`; the creation of that table; the creation of
the chains `input` (hook input priority 0, policy drop), `forward` (hook
forward priority 0, policy drop) and `output` (hook output priority 0,
policy accept); the two baseline rules (established/related conntrack
accept, loopback accept); then every zone-derived rule.  The result does
not depend on the previously stored batch, and the interface store is left
unchanged. -/
theorem c2_initialize_batch_layout (m : NetworkManager) :
    initialize_nftables m =
      { interfaces := m.interfaces,
        nftables_handle :=
          ([Stmt.Flush (Flush.Table .Inet "filter"),
            Stmt.AddTable ⟨.Inet, "filter"⟩,
            Stmt.AddChain ⟨.Inet, "filter", "input", none,
              some "type filter hook input priority 0; policy drop;"⟩,
            Stmt.AddChain ⟨.Inet, "filter", "forward", none,
              some "type filter hook forward priority 0; policy drop;"⟩,
            Stmt.AddChain ⟨.Inet, "filter", "output", none,
              some "type filter hook output priority 0; policy accept;"⟩,
            ctEstablishedRule, loopbackRule] ++ zoneStmts m.interfaces).map renderStmt } := by
  unfold initialize_nftables
  rw [foldl_batchAdd]
  rfl

/-- C3: with a supported action (lower-cased `accept` or `drop`),
`add_firewall_rule` appends exactly one rule to the stored batch, whose
expression list is the protocol matcher (present iff the protocol is
neither empty nor `any`), then the port matcher (present iff a port is
given), then the source matcher (present iff a source is given), then a
counter, then the action; the concrete call of the specification renders
with a tcp protocol match, a dport-8080 match, a `10.0.0.0/8` source
match, a counter and `drop`, in that order. -/
theorem c3_add_rule_appends :
    (∀ (m : NetworkManager) (chain protocol : String) (port : Option Nat)
        (source : Option String) (action : String) (act : Expr),
        actionExpr action = some act →
        add_firewall_rule m chain protocol port source action =
          (Except.ok (),
           { m with nftables_handle := m.nftables_handle ++
              [renderStmt (Stmt.Add ⟨.Inet, "filter", chain, none, none,
                 protoMatcher protocol ++ portMatcher protocol port ++ sourceMatcher source ++
                   [.Counter, act]⟩)] })) ∧
    (∀ m : NetworkManager,
        add_firewall_rule m "input" "tcp" (some 8080) (some "10.0.0.0/8") "drop" =
          (Except.ok (),
           { m with nftables_handle := m.nftables_handle ++
              ["add rule inet filter input tcp protocol tcp tcp dport 8080 ip saddr 10.0.0.0/8 counter drop"] })) := by
  constructor
  · intro m chain protocol port source action act h
    simp [add_firewall_rule, h, batchAdd, addRuleStmt]
  · intro m
    rfl

/-- C3 witness: a fresh manager, an uppercase `ACCEPT` action and a udp
rule with no port or source. -/
theorem c3_add_rule_appends_witness :
    add_firewall_rule ⟨[], []⟩ "input" "udp" none none "ACCEPT" =
      (Except.ok (), ⟨[], ["add rule inet filter input udp protocol udp counter accept"]⟩) := by
  have h := c3_add_rule_appends.1 ⟨[], []⟩ "input" "udp" none none "ACCEPT" Expr.Accept
    (by decide)
  exact h.trans (by decide)

/-- C4: an action whose lower-casing is neither `accept` nor `drop` makes
`add_firewall_rule` fail with `Unsupported action: ...` and return the
manager unchanged — the stored batch renders identically to before the
call. -/
theorem c4_unsupported_action (m : NetworkManager) (chain protocol : String)
    (port : Option Nat) (source : Option String) (action : String)
    (h1 : strToLower action ≠ "accept") (h2 : strToLower action ≠ "drop") :
    add_firewall_rule m chain protocol port source action =
      (Except.error ("Unsupported action: " ++ action), m) := by
  simp [add_firewall_rule, actionExpr, h1, h2]

/-- C4 witness: the specification's `reject` example on a fresh manager. -/
theorem c4_unsupported_action_witness :
    add_firewall_rule ⟨[], []⟩ "input" "tcp" none none "reject" =
      (Except.error "Unsupported action: reject", ⟨[], []⟩) := by
  have h := c4_unsupported_action ⟨[], []⟩ "input" "tcp" none none "reject"
    (by decide) (by decide)
  exact h.trans (by decide)

/-- C7 counterexample: on a manager whose ruleset is empty — so no rule
carries handle 42 — `delete_firewall_rule` succeeds instead of failing
with `NotFound`, refuting the claim as stated. -/
theorem c7_delete_rule_counterexample :
    delete_firewall_rule ⟨[], []⟩ 42 = (Except.ok (), ⟨[], []⟩) := rfl

/-- C7 amended: `delete_firewall_rule` is a stub — for every manager and
every handle it returns success and removes nothing; no `NotFound` check
is performed. -/
theorem c7_delete_rule_stub (m : NetworkManager) (h : Nat) :
    delete_firewall_rule m h = (Except.ok (), m) := rfl

/-- C9: rendering of the IR is a deterministic total function — rendering
the same batch twice yields identical text; a statement whose embedded
strings are newline-free renders to exactly one line; the expressions of a
rule render in evaluation order separated by a single space; and the
optional comment of `Batch::add` is appended as a `" # ..."` suffix.
Totality holds by construction: `renderStmt` is a total function. -/
theorem c9_render_deterministic :
    (∀ commands : List String, script commands = script commands) ∧
    (∀ s : Stmt, stmtClean s = true → noNl (renderStmt s) = true) ∧
    (∀ a : nftables.Add,
        renderStmt (Stmt.Add a) =
          "add rule " ++ renderFamily a.family ++ " " ++ a.table ++ " " ++ a.chain ++ " " ++
            sepJoin " " (a.expr.map renderExpr)) ∧
    (∀ (commands : List String) (s : Stmt) (c : String),
        batchAdd commands s (some c) = commands ++ [renderStmt s ++ " # " ++ c]) := by
  refine ⟨fun _ => rfl, renderStmt_noNl, ?_, fun _ _ _ => rfl⟩
  intro a
  simp [renderStmt, writeJoin_eq_sepJoin]

/-- C9 witness: the baseline conntrack rule is clean and renders to a
single line. -/
theorem c9_render_deterministic_witness :
    stmtClean ctEstablishedRule = true ∧ noNl (renderStmt ctEstablishedRule) = true :=
  ⟨by decide, c9_render_deterministic.2.1 ctEstablishedRule (by decide)⟩

/-- C10: the destination-port matcher of `add_firewall_rule` uses the
protocol argument verbatim as its operator even when the protocol matcher
itself is omitted: with protocol `any` the rendered rule contains
`any dport 8080`, and with an empty protocol it contains ` dport 8080`
(two spaces — no protocol keyword before `dport`). -/
theorem c10_port_matcher_verbatim :
    (∀ (protocol : String) (p : Nat),
        portMatcher protocol (some p) =
          [Expr.Match protocol (Expr.Cmp "dport" (Data.StrVal (Nat.repr p)))]) ∧
    (∀ m : NetworkManager,
        add_firewall_rule m "input" "any" (some 8080) none "accept" =
          (Except.ok (),
           { m with nftables_handle := m.nftables_handle ++
              ["add rule inet filter input any dport 8080 counter accept"] })) ∧
    (∀ m : NetworkManager,
        add_firewall_rule m "input" "" (some 8080) none "accept" =
          (Except.ok (),
           { m with nftables_handle := m.nftables_handle ++
              ["add rule inet filter input  dport 8080 counter accept"] })) :=
  ⟨fun _ _ => rfl, fun _ => rfl, fun _ => rfl⟩

/-- C8 counterexample: two reachable batches violate the claimed
invariant.  First, from a fresh manager (empty batch, no initialize) a
single successful `add_firewall_rule` yields a batch whose rule-add is
preceded by no table or chain creation at all.  Second, after
`initialize_nftables` an `add_firewall_rule` targeting the never-created
chain `custom` yields a rule-add not preceded by the creation of the chain
it references. -/
theorem c8_order_consistency_counterexample :
    (BatchReachable [addRuleStmt "input" "tcp" none none Expr.Accept] ∧
       orderConsistent [addRuleStmt "input" "tcp" none none Expr.Accept] = false) ∧
    (BatchReachable (initStmts [] ++ [addRuleStmt "custom" "tcp" none none Expr.Accept]) ∧
       orderConsistent (initStmts [] ++ [addRuleStmt "custom" "tcp" none none Expr.Accept]) =
         false) := by
  refine ⟨⟨?_, by decide⟩, ⟨?_, by decide⟩⟩
  · have h := BatchReachable.add [] BatchReachable.new "input" "tcp" none none "accept"
      Expr.Accept (by decide)
    simpa using h
  · exact BatchReachable.add _ (BatchReachable.init [] BatchReachable.new []) "custom" "tcp"
      none none "accept" Expr.Accept (by decide)

/-- C8 amended: every batch reachable from a freshly initialized batch by
successful `add_firewall_rule` calls that target one of the three created
base chains (`input`, `forward`, `output`) is internally order-consistent:
the flush precedes the table creation, the table creation precedes every
chain creation, and every rule-add is preceded by the creation of the
table and of the chain it references. -/
theorem c8_order_consistency (l : List Stmt) (h : InitReachable l) :
    orderConsistent l = true :=
  (initReachable_props l h).1

/-- C8 witness: the initialized batch for a one-interface wan
configuration is order-consistent. -/
theorem c8_order_consistency_witness :
    orderConsistent (initStmts [⟨"eth0", none, none, some "wan"⟩]) = true :=
  c8_order_consistency _ (InitReachable.init [⟨"eth0", none, none, some "wan"⟩])

/-- C5: for an existing interface and a configuration whose `ip/prefix`
address parses, `setup_interface` succeeds, deletes every address already
on that interface and adds the requested one, so that `get_interfaces`
afterwards reports exactly the requested address and no other on that
interface. -/
theorem c5_configure_address_full_replace (k : KernelState) (config : InterfaceConfig)
    (i : Nat) (a ipStr pStr : String) (ip : Ipv4Addr) (plen : Nat)
    (h1 : findIfIndex k config.name = some i)
    (h2 : config.address = some a)
    (h3 : splitOnChar a '/' = [ipStr, pStr])
    (h4 : parseIPv4 ipStr = some ip)
    (h5 : parseU8 pStr = some plen) :
    (setup_interface k config).1 = Except.ok () ∧
    ∀ info ∈ get_interfaces (setup_interface k config).2,
      info.name = config.name →
        info.addresses = [renderIp ip ++ "/" ++ Nat.repr plen] := by
  have hidx : get_interface_index k config.name = Except.ok i := by
    simp [get_interface_index, h1]
  have hsetup : setup_interface k config =
      (Except.ok (),
       { setLinkUp k i with
          addrs := k.addrs.filter (fun p => p.1 != i) ++ [(i, ip, plen)] }) := by
    unfold setup_interface
    rw [hidx]
    simp [h2, h3, h4, h5, List.getD, setLinkUp]
  rw [hsetup]
  refine ⟨rfl, ?_⟩
  intro info hinfo hname
  unfold get_interfaces at hinfo
  rcases List.mem_map.mp hinfo with ⟨l, hl, rfl⟩
  simp only at hname ⊢
  have hfind : findIfIndex
      { setLinkUp k i with addrs := k.addrs.filter (fun p => p.1 != i) ++ [(i, ip, plen)] }
      l.name = some i := by
    have heq : findIfIndex
        { setLinkUp k i with addrs := k.addrs.filter (fun p => p.1 != i) ++ [(i, ip, plen)] }
        l.name = findIfIndex (setLinkUp k i) l.name := rfl
    rw [heq, findIfIndex_setLinkUp, hname, h1]
  simp only [hfind]
  rw [List.filter_append]
  have hnil : (k.addrs.filter (fun p => p.1 != i)).filter
      (fun p => (some i == some p.1 : Bool)) = [] := by
    rw [List.filter_eq_nil_iff]
    intro p hp
    have hne := (List.mem_filter.mp hp).2
    simp only [bne_iff_ne, ne_eq] at hne
    simp only [beq_iff_eq, Option.some.injEq]
    exact fun h => hne h.symm
  rw [hnil]
  simp

/-- C5 witness: a down interface with one stale address gets exactly the
requested `192.168.1.5/24` after configuration. -/
theorem c5_configure_address_full_replace_witness :
    (setup_interface ⟨[⟨1, "eth0", false, "aa"⟩], [(1, ⟨10, 0, 0, 1⟩, 8)]⟩
        ⟨"eth0", none, some "192.168.1.5/24", none⟩).1 = Except.ok () ∧
    ∀ info ∈ get_interfaces (setup_interface ⟨[⟨1, "eth0", false, "aa"⟩],
        [(1, ⟨10, 0, 0, 1⟩, 8)]⟩ ⟨"eth0", none, some "192.168.1.5/24", none⟩).2,
      info.name = "eth0" →
        info.addresses = [renderIp ⟨192, 168, 1, 5⟩ ++ "/" ++ Nat.repr 24] :=
  c5_configure_address_full_replace _ _ 1 "192.168.1.5/24" "192.168.1.5" "24"
    ⟨192, 168, 1, 5⟩ 24 (by decide) rfl (by decide) (by decide) (by decide)

/-- C6 counterexample: with no matching interface the call fails with
`Interface not found`, not an invalid-address failure; and on a down
interface the failed call has already brought the link up, so the
interface state is not unchanged — refuting the claim as stated. -/
theorem c6_invalid_address_counterexample :
    (setup_interface ⟨[], []⟩ ⟨"eth0", none, some "not-an-ip/24", none⟩).1 =
      Except.error "Interface not found: eth0" ∧
    (setup_interface ⟨[⟨1, "eth0", false, ""⟩], []⟩
        ⟨"eth0", none, some "not-an-ip/24", none⟩).2 ≠
      ⟨[⟨1, "eth0", false, ""⟩], []⟩ := by
  exact ⟨by decide, by decide⟩

/-- C6 amended: when the interface exists but the address string fails one
of the three parsing steps, the call fails with an `Invalid...` error and
performs no address mutation — no address is deleted or added; the only
kernel mutation is the link bring-up already issued before the parse, so
the resulting state is exactly `setLinkUp k i`. -/
theorem c6_invalid_address (k : KernelState) (config : InterfaceConfig) (i : Nat) (a : String)
    (h1 : findIfIndex k config.name = some i)
    (h2 : config.address = some a)
    (h3 : addrParses a = false) :
    (∃ msg, (setup_interface k config).1 = Except.error msg ∧
       strStartsWith msg "Invalid" = true) ∧
    (setup_interface k config).2 = setLinkUp k i := by
  have hidx : get_interface_index k config.name = Except.ok i := by
    simp [get_interface_index, h1]
  by_cases hlen : (splitOnChar a '/').length = 2
  · rcases List.length_eq_two.mp hlen with ⟨x, y, hxy⟩
    have h3' : ((parseIPv4 x).isSome && (parseU8 y).isSome) = false := by
      simpa [addrParses, hxy] using h3
    cases hip : parseIPv4 x with
    | none =>
        have hsetup : setup_interface k config =
            (Except.error ("Invalid IP address: " ++ x), setLinkUp k i) := by
          unfold setup_interface
          rw [hidx]
          simp [h2, hxy, hip, List.getD]
        rw [hsetup]
        refine ⟨⟨"Invalid IP address: " ++ x, rfl, ?_⟩, rfl⟩
        have hlit : "Invalid IP address: " ++ x = "Invalid" ++ (" IP address: " ++ x) := by
          have h0 : ("Invalid" : String) ++ " IP address: " = "Invalid IP address: " := by
            decide
          rw [← h0, String.append_assoc]
        rw [hlit]
        exact strStartsWith_append "Invalid" (" IP address: " ++ x)
    | some ipv =>
        have hp8 : parseU8 y = none := by
          cases hp : parseU8 y with
          | none => rfl
          | some pl => rw [hip, hp] at h3'; simp at h3'
        have hsetup : setup_interface k config =
            (Except.error ("Invalid prefix length: " ++ y), setLinkUp k i) := by
          unfold setup_interface
          rw [hidx]
          simp [h2, hxy, hip, hp8, List.getD]
        rw [hsetup]
        refine ⟨⟨"Invalid prefix length: " ++ y, rfl, ?_⟩, rfl⟩
        have hlit : "Invalid prefix length: " ++ y = "Invalid" ++ (" prefix length: " ++ y) := by
          have h0 : ("Invalid" : String) ++ " prefix length: " = "Invalid prefix length: " := by
            decide
          rw [← h0, String.append_assoc]
        rw [hlit]
        exact strStartsWith_append "Invalid" (" prefix length: " ++ y)
  · have hsetup : setup_interface k config =
        (Except.error ("Invalid address format, expected IP/PREFIX: " ++ a), setLinkUp k i) := by
      unfold setup_interface
      rw [hidx]
      simp [h2, hlen]
    rw [hsetup]
    refine ⟨⟨"Invalid address format, expected IP/PREFIX: " ++ a, rfl, ?_⟩, rfl⟩
    have hlit : "Invalid address format, expected IP/PREFIX: " ++ a =
        "Invalid" ++ (" address format, expected IP/PREFIX: " ++ a) := by
      have h0 : ("Invalid" : String) ++ " address format, expected IP/PREFIX: " =
          "Invalid address format, expected IP/PREFIX: " := by decide
      rw [← h0, String.append_assoc]
    rw [hlit]
    exact strStartsWith_append "Invalid" (" address format, expected IP/PREFIX: " ++ a)

/-- C6 amended witness: the specification's `not-an-ip/24` example on a
down `eth0`. -/
theorem c6_invalid_address_witness :
    (∃ msg, (setup_interface ⟨[⟨1, "eth0", false, ""⟩], []⟩
        ⟨"eth0", none, some "not-an-ip/24", none⟩).1 = Except.error msg ∧
       strStartsWith msg "Invalid" = true) ∧
    (setup_interface ⟨[⟨1, "eth0", false, ""⟩], []⟩
        ⟨"eth0", none, some "not-an-ip/24", none⟩).2 =
      setLinkUp ⟨[⟨1, "eth0", false, ""⟩], []⟩ 1 :=
  c6_invalid_address _ _ 1 "not-an-ip/24" (by decide) rfl (by decide)
